import Mathlib

/-!
Shallow embedding of `src/gitMassClone/git_mass_clone.py`.

Modelling conventions:
* A git subcommand invocation (`run_git_command`, which runs `git -C repo_dir
  <args...>`) is modelled by an oracle `GitEnv` mapping the argument list to a
  `CommandResult` (exit status, captured stdout, captured stderr).  The
  `repo_dir` component is dropped: every modelled run works on one repository.
  Each modelled function also returns the list of git commands it issued, in
  order, so that control-flow claims (what was run, and in what order) are
  provable.
* The process-wide report `checkout_report` (a Python dict of dicts of lists)
  is modelled by an insertion-ordered association list, matching Python dict
  semantics: a new key is appended at the end, an existing key is updated in
  place.
* Python `\s` / `str.strip()` are modelled over the ASCII whitespace
  characters; captured stdout is split into lines on `'\n'` (the terminators
  relevant to git's output).
-/

/-- Result of one git subprocess invocation (`subprocess.run` with
`capture_output=True`): exit status, captured stdout, captured stderr. -/
structure CommandResult where
  returncode : Int
  stdout : String
  stderr : String
deriving Repr, DecidableEq

/-- A git command, as the argument list passed after `git -C repo_dir`. -/
abbrev GitCmd := List String

/-- Oracle giving the outcome of each git command (`run_git_command`). -/
structure GitEnv where
  run : GitCmd → CommandResult

/-- Python ASCII whitespace, the characters matched by `str.strip()` and by
the regex class `\s` on the inputs at hand. -/
def pyIsSpace (c : Char) : Bool :=
  c == ' ' || c == '\t' || c == '\n' || c == '\r' || c == '\x0b' || c == '\x0c'

/-- Python `str.strip()`: drop whitespace from both ends. -/
def pyStrip (s : String) : String :=
  ⟨((s.toList.dropWhile pyIsSpace).reverse.dropWhile pyIsSpace).reverse⟩

/-- Split a character list at every `'\n'`. -/
def splitNl (l : List Char) : List (List Char) :=
  match l with
  | [] => [[]]
  | c :: rest =>
    if c = '\n' then [] :: splitNl rest
    else
      match splitNl rest with
      | [] => [[c]]
      | h :: t => (c :: h) :: t

/-- Python `str.splitlines()` for text whose line terminator is `'\n'`
(a final terminator produces no trailing empty line). -/
def splitlines (s : String) : List String :=
  let parts := (splitNl s.toList).map (fun l => (⟨l⟩ : String))
  if parts.getLast? = some "" then parts.dropLast else parts

/-- Contiguous-sublist test on character lists. -/
def listInfix (pat : List Char) : List Char → Bool
  | [] => pat.isEmpty
  | c :: rest => pat.isPrefixOf (c :: rest) || listInfix pat rest

/-- Python `pat in s` substring test. -/
def strContains (s pat : String) : Bool :=
  listInfix pat.toList s.toList

/-- Python `s.startswith(pre)`. -/
def strStartsWith (s pre : String) : Bool :=
  pre.toList.isPrefixOf s.toList

/-- Python `s.split(c, 1)[1]`: everything after the first occurrence of `c`
(used only when `c` is known to occur). -/
def afterFirstChar (c : Char) (s : String) : String :=
  ⟨(s.toList.dropWhile (fun a => a != c)).tail⟩

/-- The report `checkout_report`: repository identifier → category →
ordered deduplicated list of recorded names.  Association lists keep Python
dict insertion order. -/
abbrev Report := List (String × List (String × List String))

/-- Append `x` to `xs` unless already present (`if branch_name not in ...:
append`). -/
def addUniq (xs : List String) (x : String) : List String :=
  if x ∈ xs then xs else xs ++ [x]

/-- Inner update of `_add_to_report`: category dict of one repository. -/
def addToCat (cats : List (String × List String)) (ty b : String) :
    List (String × List String) :=
  match cats with
  | [] => [(ty, [b])]
  | (c, bs) :: rest =>
    if c = ty then (c, addUniq bs b) :: rest
    else (c, bs) :: addToCat rest ty b

/-- `_add_to_report(repo_identifier, type, branch_name)` (source lines
123–130). -/
def add_to_report (rep : Report) (repoId ty b : String) : Report :=
  match rep with
  | [] => [(repoId, [(ty, [b])])]
  | (r, cats) :: rest =>
    if r = repoId then (r, addToCat cats ty b) :: rest
    else (r, cats) :: add_to_report rest repoId ty b

/-- Membership of a recorded name in one repository's category dict. -/
def catMem (cats : List (String × List String)) (cat b : String) : Prop :=
  ∃ q ∈ cats, q.1 = cat ∧ b ∈ q.2

/-- Membership of a recorded name in the report. -/
def reportMem (rep : Report) (repoId cat b : String) : Prop :=
  ∃ p ∈ rep, p.1 = repoId ∧ catMem p.2 cat b

instance (cats : List (String × List String)) (cat b : String) :
    Decidable (catMem cats cat b) := by
  unfold catMem; infer_instance

instance (rep : Report) (repoId cat b : String) :
    Decidable (reportMem rep repoId cat b) := by
  unfold reportMem catMem; infer_instance

/- ### Parsing of `git branch -vv` lines (the gone-branch regex)

The source matches each line against
`re.compile(r"^\*?\s+(\S+)\s+\S+\s+\[origin/(\S+): gone\]")` using `search`
(anchored at the start by `^`).  On any given line the regex engine's choices
are forced: `\*?` must consume a leading `'*'` when present (otherwise `\s+`
fails on it), each `\s+`/`\S+` is a maximal run because the two classes are
disjoint and each run is followed by the other class or a literal, and the
second capture group must be exactly the maximal non-space run after
`[origin/` with its trailing `':'` removed, followed by the literal
`" gone]"`.  `goneMatch` implements that forced parse directly. -/

/-- Split off the maximal leading run of non-whitespace characters. -/
def spanNonspace (l : List Char) : List Char × List Char :=
  (l.takeWhile (fun c => !pyIsSpace c), l.dropWhile (fun c => !pyIsSpace c))

/-- Consume `\s+`: at least one whitespace character, maximally. -/
def dropSpacesOnePlus (l : List Char) : Option (List Char) :=
  match l with
  | [] => none
  | c :: rest => if pyIsSpace c then some (rest.dropWhile pyIsSpace) else none

/-- Consume a literal prefix, or fail. -/
def stripPre (pre l : List Char) : Option (List Char) :=
  match pre, l with
  | [], rest => some rest
  | _ :: _, [] => none
  | p :: ps, c :: cs => if c = p then stripPre ps cs else none

/-- Match one `git branch -vv` line against the gone-branch pattern,
returning `(local branch name, remote branch name)` — the two capture
groups — when it matches. -/
def goneMatch (line : String) : Option (String × String) :=
  let l0 :=
    match line.toList with
    | '*' :: rest => rest
    | l => l
  match dropSpacesOnePlus l0 with
  | none => none
  | some l1 =>
    let p1 := spanNonspace l1
    if p1.1 = [] then none else
    match dropSpacesOnePlus p1.2 with
    | none => none
    | some l2 =>
      let p2 := spanNonspace l2
      if p2.1 = [] then none else
      match dropSpacesOnePlus p2.2 with
      | none => none
      | some l3 =>
        match stripPre "[origin/".toList l3 with
        | none => none
        | some l4 =>
          let p3 := spanNonspace l4
          if p3.1.getLast? = some ':' ∧ 2 ≤ p3.1.length then
            match stripPre " gone]".toList p3.2 with
            | none => none
            | some _ => some (⟨p1.1⟩, ⟨p3.1.dropLast⟩)
          else none

/- ### `_get_remote_branches` (source lines 165–178) -/

/-- The parsing loop of `_get_remote_branches` over the output lines of
`git branch -r`: keep a stripped line when it starts with `origin/` and does
not contain `->`; the contributed name is everything after the first `/`.
The Python code accumulates into a `set`; the model keeps an
insertion-ordered deduplicated list (the caller only ever sorts it, so the
difference is unobservable).  `grbStep` is the body of the loop, one line. -/
def grbStep (acc : List String) (line : String) : List String :=
  let l := pyStrip line
  if strStartsWith l "origin/" && !strContains l "->" then
    addUniq acc (afterFirstChar '/' l)
  else acc

/-- The whole parsing loop: fold `grbStep` over the lines, starting empty. -/
def get_remote_branches_lines (lines : List String) : List String :=
  lines.foldl grbStep []

/-- `_get_remote_branches`: `none` models the Python `None` returned when
`git branch -r` exits non-zero. -/
def get_remote_branches (env : GitEnv) : Option (List String) :=
  let r := env.run ["branch", "-r"]
  if r.returncode ≠ 0 then none
  else some (get_remote_branches_lines (splitlines r.stdout))

/- ### `_fetch_and_prune` (source lines 153–162) -/

/-- `_fetch_and_prune`: run `remote prune origin` (result ignored), then
`fetch --prune`; on fetch failure record the stripped stderr under
`branches-com-falha` and return `false`. -/
def fetch_and_prune (env : GitEnv) (repoId : String) (rep : Report) :
    Bool × Report × List GitCmd :=
  let _ := env.run ["remote", "prune", "origin"]
  let f := env.run ["fetch", "--prune"]
  if f.returncode ≠ 0 then
    (false, add_to_report rep repoId "branches-com-falha" (pyStrip f.stderr),
      [["remote", "prune", "origin"], ["fetch", "--prune"]])
  else
    (true, rep, [["remote", "prune", "origin"], ["fetch", "--prune"]])

/- ### `_delete_branches` (source lines 181–200) -/

/-- `_delete_branches`: for each branch, query the current branch
(`rev-parse --abbrev-ref HEAD`); if it is this branch, record it under
`branches-com-falha` and skip deletion; otherwise try `branch -d`, on
failure `branch -D`, and record under `branches-com-falha` only when the
forced delete also fails. -/
def delete_branches (env : GitEnv) (repoId : String) :
    List String → Report → Report × List GitCmd
  | [], rep => (rep, [])
  | b :: rest, rep =>
    let cur := env.run ["rev-parse", "--abbrev-ref", "HEAD"]
    if cur.returncode = 0 ∧ pyStrip cur.stdout = b then
      let rep1 := add_to_report rep repoId "branches-com-falha" b
      let r := delete_branches env repoId rest rep1
      (r.1, ["rev-parse", "--abbrev-ref", "HEAD"] :: r.2)
    else
      let d := env.run ["branch", "-d", b]
      if d.returncode ≠ 0 then
        let f := env.run ["branch", "-D", b]
        let rep1 :=
          if f.returncode ≠ 0 then add_to_report rep repoId "branches-com-falha" b
          else rep
        let r := delete_branches env repoId rest rep1
        (r.1, ["rev-parse", "--abbrev-ref", "HEAD"] :: ["branch", "-d", b] ::
          ["branch", "-D", b] :: r.2)
      else
        let r := delete_branches env repoId rest rep
        (r.1, ["rev-parse", "--abbrev-ref", "HEAD"] :: ["branch", "-d", b] :: r.2)

/- ### `_handle_gone_branches` (source lines 203–225) -/

/-- `_handle_gone_branches`: run `branch -vv`; on failure return with no
report change.  Otherwise, for each line matching the gone pattern record the
remote branch name under `branches-removidas`, collect the local branch names
when the delete flag is set, and delete them when any were collected. -/
def handle_gone_branches (env : GitEnv) (repoId : String) (flag : Bool)
    (rep : Report) : Report × List GitCmd :=
  let r := env.run ["branch", "-vv"]
  if r.returncode ≠ 0 then (rep, [["branch", "-vv"]])
  else
    let ms := (splitlines r.stdout).filterMap goneMatch
    let rep1 := ms.foldl
      (fun acc m => add_to_report acc repoId "branches-removidas" m.2) rep
    let toDelete := if flag then ms.map Prod.fst else []
    if toDelete ≠ [] then
      let r2 := delete_branches env repoId toDelete rep1
      (r2.1, ["branch", "-vv"] :: r2.2)
    else (rep1, [["branch", "-vv"]])

/- ### `_checkout_remote_branch` (source lines 228–239) -/

/-- `_checkout_remote_branch`: `checkout branch`; on failure
`checkout --track origin/branch`; if that also fails record the branch under
`branches-com-falha` and return `false`. -/
def checkout_remote_branch (env : GitEnv) (repoId branch : String)
    (rep : Report) : Bool × Report × List GitCmd :=
  let c := env.run ["checkout", branch]
  if c.returncode ≠ 0 then
    let t := env.run ["checkout", "--track", "origin/" ++ branch]
    if t.returncode ≠ 0 then
      (false, add_to_report rep repoId "branches-com-falha" branch,
        [["checkout", branch], ["checkout", "--track", "origin/" ++ branch]])
    else
      (true, rep,
        [["checkout", branch], ["checkout", "--track", "origin/" ++ branch]])
  else (true, rep, [["checkout", branch]])

/- ### `_return_to_original_branch` (source lines 242–261) -/

/-- The fallback loop `for default_branch in ('main', 'master')`: try each in
order, stop at the first whose checkout succeeds.  Returns the branch the
repository ended on (if any) and the checkout commands issued. -/
def try_defaults (env : GitEnv) : List String → Option String × List GitCmd
  | [] => (none, [])
  | d :: rest =>
    if (env.run ["checkout", d]).returncode = 0 then (some d, [["checkout", d]])
    else
      let r := try_defaults env rest
      (r.1, ["checkout", d] :: r.2)

/-- `_return_to_original_branch`: when an original branch was recorded (not
`None`, not empty, not the detached marker `HEAD`) try to check it out; on
failure, or when none was recorded, fall back to `main` then `master`. -/
def return_to_original_branch (env : GitEnv) (original : Option String) :
    Option String × List GitCmd :=
  match original with
  | some o =>
    if o ≠ "" ∧ o ≠ "HEAD" then
      if (env.run ["checkout", o]).returncode = 0 then (some o, [["checkout", o]])
      else
        let r := try_defaults env ["main", "master"]
        (r.1, ["checkout", o] :: r.2)
    else try_defaults env ["main", "master"]
  | none => try_defaults env ["main", "master"]

/- ### `update_repository_branches` (source lines 266–289) -/

/-- The original-branch capture at the start of `update_repository_branches`:
`rev-parse --abbrev-ref HEAD`, stripped stdout on success, `None` on
failure. -/
def original_branch (env : GitEnv) : Option String :=
  let cur := env.run ["rev-parse", "--abbrev-ref", "HEAD"]
  if cur.returncode = 0 then some (pyStrip cur.stdout) else none

/-- The reconciliation loop `for branch in sorted(list(remote_branches))`:
skip `HEAD`, otherwise `_checkout_remote_branch`. -/
def reconcile_branches (env : GitEnv) (repoId : String) :
    List String → Report → Report × List GitCmd
  | [], rep => (rep, [])
  | b :: rest, rep =>
    if b = "HEAD" then reconcile_branches env repoId rest rep
    else
      let c := checkout_remote_branch env repoId b rep
      let r := reconcile_branches env repoId rest c.2.1
      (r.1, c.2.2 ++ r.2)

/-- Python's `sorted` on the deduplicated remote-branch list. -/
def sortedRemote (env : GitEnv) : List String :=
  List.insertionSort (fun a b => a ≤ b)
    (get_remote_branches_lines (splitlines (env.run ["branch", "-r"]).stdout))

/-- `update_repository_branches`: capture the original branch, fetch and
prune (on failure restore and stop), enumerate remote branches (on failure
restore and stop), scan for gone branches, reconcile each remote branch in
sorted order, restore the original branch. -/
def update_repository_branches (env : GitEnv) (repoId : String) (flag : Bool)
    (rep : Report) : Report × List GitCmd :=
  let original := original_branch env
  let f := fetch_and_prune env repoId rep
  if f.1 = false then
    let ret := return_to_original_branch env original
    (f.2.1, ["rev-parse", "--abbrev-ref", "HEAD"] :: f.2.2 ++ ret.2)
  else
    match get_remote_branches env with
    | none =>
      let ret := return_to_original_branch env original
      (f.2.1, ["rev-parse", "--abbrev-ref", "HEAD"] :: f.2.2 ++
        [["branch", "-r"]] ++ ret.2)
    | some _ =>
      let g := handle_gone_branches env repoId flag f.2.1
      let rec1 := reconcile_branches env repoId (sortedRemote env) g.1
      let ret := return_to_original_branch env original
      (rec1.1, ["rev-parse", "--abbrev-ref", "HEAD"] :: f.2.2 ++
        [["branch", "-r"]] ++ g.2 ++ rec1.2 ++ ret.2)

/- ### `_update_repository` and `process_repository` (source lines 330–358) -/

/-- `_update_repository`: run `git pull`; a failure is only logged (the
report-recording line is commented out in the source); the report carried
through is unchanged either way. -/
def update_repository (env : GitEnv) (rep : Report) :
    Bool × Report × List GitCmd :=
  let p := env.run ["pull"]
  (p.returncode = 0, rep, [["pull"]])

/-- `process_repository`: when the repository exists, pull and then always
synchronize branches; otherwise clone (`cloneOk` models the outcome of
`_clone_repository`, which is filesystem work outside this model) and
synchronize only when the clone succeeded. -/
def process_repository (env : GitEnv) (repoExists cloneOk : Bool)
    (repoId : String) (flag : Bool) (rep : Report) : Report × List GitCmd :=
  if repoExists then
    let u := update_repository env rep
    let s := update_repository_branches env repoId flag u.2.1
    (s.1, u.2.2 ++ s.2)
  else if cloneOk then update_repository_branches env repoId flag rep
  else (rep, [])

/- ### `processar_repo_name`, `build_repo_identifier`, `process_repo_entry`
(source lines 361–386) -/

/-- `processar_repo_name` for string input: strip a trailing `.git`
(`repo_name[:-4]`). -/
def processar_repo_name (repo : String) : String :=
  if (".git".toList).isSuffixOf repo.toList then
    ⟨repo.toList.dropLast.dropLast.dropLast.dropLast⟩
  else repo

/-- `build_repo_identifier`: `client/classe/proj/[grupo/]repoName`, the group
segment present only when `grupo` is truthy (not `None`, not empty). -/
def build_repo_identifier (client classe proj : String) (grupo : Option String)
    (repoName : String) : String :=
  client ++ "/" ++ classe ++ "/" ++ proj ++ "/" ++
    (match grupo with
     | some g => if g ≠ "" then g ++ "/" else ""
     | none => "") ++ repoName

/-- Python `s.endswith(c)` for a single character: the last character is
`c`. -/
def lastIs (s : String) (c : Char) : Bool :=
  s.toList.getLast? = some c

/-- Python `s.startswith(c)` for a single character: the first character is
`c`. -/
def headIs (s : String) (c : Char) : Bool :=
  s.toList.head? = some c

/-- POSIX `os.path.join` on two components. -/
def pyJoin2 (a b : String) : String :=
  if headIs b '/' then b
  else if a = "" ∨ lastIs a '/' then a ++ b
  else a ++ "/" ++ b

/-- POSIX `os.path.join(*parts)`. -/
def pyJoin (parts : List String) : String :=
  match parts with
  | [] => ""
  | p :: ps => ps.foldl pyJoin2 p

/-- The data computed by `process_repo_entry`: clone URL, destination path,
repository identifier. -/
structure RepoJob where
  url : String
  dest : String
  repoId : String
deriving Repr, DecidableEq

/-- `process_repo_entry`: build the clone URL from `base_url` (inserting `/`
only when the base ends in neither `/` nor `:`) and the *unstripped*
repository name; build the destination from the *stripped* name by joining
`dir_base/classe/proj[/grupo]/name`.  `os.path.abspath` is not modelled: on
an already absolute, already normal joined path it is the identity, and no
claim concerns relative bases. -/
def process_repo_entry (base_url dir_base classe proj : String)
    (grupo : Option String) (repo_name client : String) : RepoJob :=
  let needs_slash := !(lastIs base_url '/' || lastIs base_url ':')
  let url := base_url ++ (if needs_slash then "/" else "") ++ repo_name
  let updated := processar_repo_name repo_name
  let parts := [dir_base, classe, proj] ++
    (match grupo with
     | some g => if g ≠ "" then [g] else []
     | none => []) ++ [updated]
  { url := url
    dest := pyJoin parts
    repoId := build_repo_identifier client classe proj grupo updated }

/- ### `_print_report` (source lines 445–466) -/

/-- Category-list sorting step of `_print_report`: sort the
`branches-removidas` and `branches-com-falha` lists of one repository entry;
other keys (none are ever produced) are left alone. -/
def sortCatLists (cats : List (String × List String)) :
    List (String × List String) :=
  cats.map (fun q =>
    if q.1 = "branches-removidas" ∨ q.1 = "branches-com-falha" then
      (q.1, List.insertionSort (fun a b => a ≤ b) q.2)
    else q)

/-- Lookup `checkout_report[k]` (total here; rendering only looks up keys of
the dict). -/
def lookupCats (rep : Report) (k : String) : List (String × List String) :=
  match rep.find? (fun p => p.1 == k) with
  | some p => p.2
  | none => []

/-- The `sorted_report` built by `_print_report`: repository identifiers in
sorted order, each entry's category dict kept in insertion order with the two
known branch-name lists sorted. -/
def render_report (rep : Report) : Report :=
  (List.insertionSort (fun a b => a ≤ b) (rep.map Prod.fst)).map
    (fun k => (k, sortCatLists (lookupCats rep k)))

/-! ### Concrete environments used to exercise the theorems -/

/-- Environment for the main success path: original branch `dev`; fetch
succeeds; `branch -r` lists `origin/main`, the symbolic `HEAD` pointer and a
foreign remote; `branch -vv` shows one gone branch `alpha` tracking
`origin/rem`; `pull` fails; every other command (checkouts, deletes)
succeeds. -/
def envW : GitEnv :=
  ⟨fun cmd =>
    if cmd = ["rev-parse", "--abbrev-ref", "HEAD"] then ⟨0, "dev\n", ""⟩
    else if cmd = ["branch", "-r"] then
      ⟨0, "  origin/main\n  origin/HEAD -> origin/main\n  upstream/dev\n", ""⟩
    else if cmd = ["branch", "-vv"] then
      ⟨0, "  alpha abc1234 [origin/rem: gone] msg\n", ""⟩
    else if cmd = ["pull"] then ⟨1, "", "pull failed"⟩
    else ⟨0, "", ""⟩⟩

/-- Environment whose `branch -vv` output contains one gone-branch line with
distinct local (`alpha`) and remote (`rem`) names. -/
def envC1 : GitEnv :=
  ⟨fun cmd =>
    if cmd = ["branch", "-vv"] then
      ⟨0, "  alpha abc1234 [origin/rem: gone] msg\n", ""⟩
    else ⟨0, "", ""⟩⟩

/-- Environment where fetch succeeds but listing remote branches fails. -/
def envC3 : GitEnv :=
  ⟨fun cmd =>
    if cmd = ["branch", "-r"] then ⟨1, "", "cannot list remote branches"⟩
    else if cmd = ["rev-parse", "--abbrev-ref", "HEAD"] then ⟨0, "dev\n", ""⟩
    else ⟨0, "", ""⟩⟩

/-- Environment where the verbose local-branch listing (`branch -vv`)
fails while everything else succeeds. -/
def envC10 : GitEnv :=
  ⟨fun cmd =>
    if cmd = ["branch", "-vv"] then ⟨1, "", "cannot run branch -vv"⟩
    else if cmd = ["rev-parse", "--abbrev-ref", "HEAD"] then ⟨0, "dev\n", ""⟩
    else if cmd = ["branch", "-r"] then ⟨0, "  origin/main\n", ""⟩
    else ⟨0, "", ""⟩⟩

/-! ### Report-membership lemmas -/

theorem mem_addUniq {xs : List String} {x y : String} :
    y ∈ addUniq xs x ↔ y ∈ xs ∨ y = x := by
  unfold addUniq
  split
  · rename_i h
    constructor
    · exact Or.inl
    · rintro (hy | rfl)
      · exact hy
      · exact h
  · simp

theorem catMem_addToCat_self (cats : List (String × List String)) (ty b : String) :
    catMem (addToCat cats ty b) ty b := by
  induction cats with
  | nil => exact ⟨(ty, [b]), by simp [addToCat], rfl, by simp⟩
  | cons hd tl ih =>
    obtain ⟨c, bs⟩ := hd
    by_cases h : c = ty
    · subst h
      exact ⟨(c, addUniq bs b), by simp [addToCat], rfl, by simp [mem_addUniq]⟩
    · obtain ⟨q, hq, h1, h2⟩ := ih
      exact ⟨q, by simp [addToCat, h, hq], h1, h2⟩

theorem catMem_addToCat_mono {cats : List (String × List String)}
    {c x : String} (ty b : String) (h : catMem cats c x) :
    catMem (addToCat cats ty b) c x := by
  induction cats with
  | nil => exact absurd h (by simp [catMem])
  | cons hd tl ih =>
    obtain ⟨ch, bsh⟩ := hd
    obtain ⟨q, hq, h1, h2⟩ := h
    rcases List.mem_cons.mp hq with hq | hq
    · subst hq
      by_cases hc : ch = ty
      · subst hc
        exact ⟨(ch, addUniq bsh b), by simp [addToCat], h1, by
          simp only at h2 ⊢
          exact mem_addUniq.mpr (Or.inl h2)⟩
      · exact ⟨(ch, bsh), by simp [addToCat, hc], h1, h2⟩
    · by_cases hc : ch = ty
      · subst hc
        exact ⟨q, by simp [addToCat, hq], h1, h2⟩
      · obtain ⟨q', hq', h1', h2'⟩ := ih ⟨q, hq, h1, h2⟩
        exact ⟨q', by simp [addToCat, hc, hq'], h1', h2'⟩

theorem catMem_addToCat_inv {cats : List (String × List String)}
    {ty b c x : String} (h : catMem (addToCat cats ty b) c x) :
    catMem cats c x ∨ (c = ty ∧ x = b) := by
  induction cats with
  | nil =>
    obtain ⟨q, hq, h1, h2⟩ := h
    simp only [addToCat] at hq
    rcases List.mem_singleton.mp hq with rfl
    have hc1 : ty = c := h1
    have hx : x ∈ [b] := h2
    rcases List.mem_singleton.mp hx with rfl
    exact Or.inr ⟨hc1.symm, rfl⟩
  | cons hd tl ih =>
    obtain ⟨ch, bsh⟩ := hd
    obtain ⟨q, hq, h1, h2⟩ := h
    by_cases hc : ch = ty
    · simp only [addToCat] at hq
      rw [if_pos hc] at hq
      rcases List.mem_cons.mp hq with hq1 | hq1
      · subst hq1
        have hc1 : ch = c := h1
        have hx : x ∈ addUniq bsh b := h2
        rcases mem_addUniq.mp hx with hb | hb
        · exact Or.inl ⟨(ch, bsh), List.mem_cons_self _ _, hc1, hb⟩
        · exact Or.inr ⟨hc1.symm.trans hc, hb⟩
      · exact Or.inl ⟨q, List.mem_cons_of_mem _ hq1, h1, h2⟩
    · simp only [addToCat] at hq
      rw [if_neg hc] at hq
      rcases List.mem_cons.mp hq with hq1 | hq1
      · subst hq1
        exact Or.inl ⟨(ch, bsh), List.mem_cons_self _ _, h1, h2⟩
      · rcases ih ⟨q, hq1, h1, h2⟩ with hm | hr
        · obtain ⟨q2, hq2, h12, h22⟩ := hm
          exact Or.inl ⟨q2, List.mem_cons_of_mem _ hq2, h12, h22⟩
        · exact Or.inr hr

theorem reportMem_add_self (rep : Report) (i c b : String) :
    reportMem (add_to_report rep i c b) i c b := by
  induction rep with
  | nil =>
    exact ⟨(i, [(c, [b])]), by simp [add_to_report],
      rfl, ⟨(c, [b]), by simp, rfl, by simp⟩⟩
  | cons hd tl ih =>
    obtain ⟨r, cats⟩ := hd
    by_cases hr : r = i
    · subst hr
      exact ⟨(r, addToCat cats c b), by simp [add_to_report], rfl,
        catMem_addToCat_self cats c b⟩
    · obtain ⟨p, hp, h1, h2⟩ := ih
      exact ⟨p, by simp [add_to_report, hr, hp], h1, h2⟩

theorem reportMem_add_mono {rep : Report} {i c x : String}
    (i' c' b' : String) (h : reportMem rep i c x) :
    reportMem (add_to_report rep i' c' b') i c x := by
  induction rep with
  | nil => exact absurd h (by simp [reportMem])
  | cons hd tl ih =>
    obtain ⟨r, cats⟩ := hd
    obtain ⟨p, hp, h1, h2⟩ := h
    rcases List.mem_cons.mp hp with hp | hp
    · subst hp
      by_cases hr : r = i'
      · subst hr
        exact ⟨(r, addToCat cats c' b'), by simp [add_to_report], h1,
          catMem_addToCat_mono c' b' h2⟩
      · exact ⟨(r, cats), by simp [add_to_report, hr], h1, h2⟩
    · by_cases hr : r = i'
      · subst hr
        exact ⟨p, by simp [add_to_report, hp], h1, h2⟩
      · obtain ⟨p', hp', h1', h2'⟩ := ih ⟨p, hp, h1, h2⟩
        exact ⟨p', by simp [add_to_report, hr, hp'], h1', h2'⟩

theorem reportMem_add_inv {rep : Report} {i' c' b' i c x : String}
    (h : reportMem (add_to_report rep i' c' b') i c x) :
    reportMem rep i c x ∨ (i = i' ∧ c = c' ∧ x = b') := by
  induction rep with
  | nil =>
    obtain ⟨p, hp, h1, h2⟩ := h
    simp only [add_to_report] at hp
    rcases List.mem_singleton.mp hp with rfl
    have hi : i' = i := h1
    have hcm : catMem [(c', [b'])] c x := h2
    obtain ⟨q, hq, hq1, hq2⟩ := hcm
    rcases List.mem_singleton.mp hq with rfl
    have hc1 : c' = c := hq1
    have hx : x ∈ [b'] := hq2
    rcases List.mem_singleton.mp hx with rfl
    exact Or.inr ⟨hi.symm, hc1.symm, rfl⟩
  | cons hd tl ih =>
    obtain ⟨r, cats⟩ := hd
    obtain ⟨p, hp, h1, h2⟩ := h
    by_cases hr : r = i'
    · simp only [add_to_report] at hp
      rw [if_pos hr] at hp
      rcases List.mem_cons.mp hp with hp1 | hp1
      · subst hp1
        have hr1 : r = i := h1
        have hcm : catMem (addToCat cats c' b') c x := h2
        rcases catMem_addToCat_inv hcm with hm | ⟨hc2, hb2⟩
        · exact Or.inl ⟨(r, cats), List.mem_cons_self _ _, hr1, hm⟩
        · exact Or.inr ⟨hr1.symm.trans hr, hc2, hb2⟩
      · exact Or.inl ⟨p, List.mem_cons_of_mem _ hp1, h1, h2⟩
    · simp only [add_to_report] at hp
      rw [if_neg hr] at hp
      rcases List.mem_cons.mp hp with hp1 | hp1
      · subst hp1
        exact Or.inl ⟨(r, cats), List.mem_cons_self _ _, h1, h2⟩
      · rcases ih ⟨p, hp1, h1, h2⟩ with hm | hr'
        · obtain ⟨p2, hp2, h12, h22⟩ := hm
          exact Or.inl ⟨p2, List.mem_cons_of_mem _ hp2, h12, h22⟩
        · exact Or.inr hr'

/-! ### Report flow through the synchronizer's steps -/

theorem delete_branches_mono (env : GitEnv) (repoId : String) (bs : List String)
    {rep : Report} {i c x : String} (h : reportMem rep i c x) :
    reportMem (delete_branches env repoId bs rep).1 i c x := by
  induction bs generalizing rep with
  | nil => exact h
  | cons b rest ih =>
    simp only [delete_branches]
    split
    · exact ih (reportMem_add_mono _ _ _ h)
    · split
      · split
        · exact ih (reportMem_add_mono _ _ _ h)
        · exact ih h
      · exact ih h

theorem delete_branches_inv (env : GitEnv) (repoId : String) (bs : List String)
    {rep : Report} {i c x : String}
    (h : reportMem (delete_branches env repoId bs rep).1 i c x) :
    reportMem rep i c x ∨ c = "branches-com-falha" := by
  induction bs generalizing rep with
  | nil => exact Or.inl h
  | cons b rest ih =>
    simp only [delete_branches] at h
    split at h
    · rcases ih h with h2 | h2
      · rcases reportMem_add_inv h2 with h3 | ⟨_, h3, _⟩
        · exact Or.inl h3
        · exact Or.inr h3
      · exact Or.inr h2
    · split at h
      · split at h
        · rcases ih h with h2 | h2
          · rcases reportMem_add_inv h2 with h3 | ⟨_, h3, _⟩
            · exact Or.inl h3
            · exact Or.inr h3
          · exact Or.inr h2
        · exact ih h
      · exact ih h

theorem goneFold_mono (repoId : String) (ms : List (String × String))
    {rep : Report} {i c x : String} (h : reportMem rep i c x) :
    reportMem
      (ms.foldl (fun acc m => add_to_report acc repoId "branches-removidas" m.2) rep)
      i c x := by
  induction ms generalizing rep with
  | nil => exact h
  | cons m rest ih => exact ih (reportMem_add_mono _ _ _ h)

theorem goneFold_self (repoId : String) (ms : List (String × String))
    {rep : Report} {m : String × String} (hm : m ∈ ms) :
    reportMem
      (ms.foldl (fun acc m2 => add_to_report acc repoId "branches-removidas" m2.2) rep)
      repoId "branches-removidas" m.2 := by
  induction ms generalizing rep with
  | nil => cases hm
  | cons m2 rest ih =>
    rcases List.mem_cons.mp hm with rfl | hm2
    · exact goneFold_mono repoId rest (reportMem_add_self _ _ _ _)
    · exact ih hm2

theorem goneFold_inv (repoId : String) (ms : List (String × String))
    {rep : Report} {i c x : String}
    (h : reportMem
      (ms.foldl (fun acc m => add_to_report acc repoId "branches-removidas" m.2) rep)
      i c x) :
    reportMem rep i c x ∨ c = "branches-removidas" := by
  induction ms generalizing rep with
  | nil => exact Or.inl h
  | cons m rest ih =>
    rcases ih h with h2 | h2
    · rcases reportMem_add_inv h2 with h3 | ⟨_, h3, _⟩
      · exact Or.inl h3
      · exact Or.inr h3
    · exact Or.inr h2

theorem handle_gone_branches_fail (env : GitEnv) (repoId : String)
    (flag : Bool) (rep : Report)
    (hrc : (env.run ["branch", "-vv"]).returncode ≠ 0) :
    handle_gone_branches env repoId flag rep = (rep, [["branch", "-vv"]]) := by
  unfold handle_gone_branches
  rw [if_pos hrc]

theorem handle_gone_branches_fst (env : GitEnv) (repoId : String) (flag : Bool)
    (rep : Report)
    (hrc : (env.run ["branch", "-vv"]).returncode = 0) :
    (handle_gone_branches env repoId flag rep).1 =
      (delete_branches env repoId
        (if flag then
          ((splitlines (env.run ["branch", "-vv"]).stdout).filterMap goneMatch).map
            Prod.fst
        else [])
        (((splitlines (env.run ["branch", "-vv"]).stdout).filterMap goneMatch).foldl
          (fun acc m => add_to_report acc repoId "branches-removidas" m.2) rep)).1 := by
  unfold handle_gone_branches
  rw [if_neg (fun hne => hne hrc)]
  dsimp only
  split
  · split
    · rfl
    · rename_i hni
      rw [not_not.mp hni]
      rfl
  · rw [if_neg (fun h => h rfl)]
    rfl

theorem handle_gone_branches_self (env : GitEnv) (repoId : String) (flag : Bool)
    (rep : Report) {lb rb : String}
    (hrc : (env.run ["branch", "-vv"]).returncode = 0)
    (hm : (lb, rb) ∈
      (splitlines (env.run ["branch", "-vv"]).stdout).filterMap goneMatch) :
    reportMem (handle_gone_branches env repoId flag rep).1
      repoId "branches-removidas" rb := by
  rw [handle_gone_branches_fst env repoId flag rep hrc]
  exact delete_branches_mono _ _ _ (goneFold_self repoId _ hm)

theorem handle_gone_branches_inv (env : GitEnv) (repoId : String) (flag : Bool)
    {rep : Report} {i c x : String}
    (h : reportMem (handle_gone_branches env repoId flag rep).1 i c x) :
    reportMem rep i c x ∨ c = "branches-removidas" ∨ c = "branches-com-falha" := by
  by_cases hrc : (env.run ["branch", "-vv"]).returncode = 0
  · rw [handle_gone_branches_fst env repoId flag rep hrc] at h
    rcases delete_branches_inv _ _ _ h with h2 | h2
    · rcases goneFold_inv _ _ h2 with h3 | h3
      · exact Or.inl h3
      · exact Or.inr (Or.inl h3)
    · exact Or.inr (Or.inr h2)
  · rw [handle_gone_branches_fail env repoId flag rep hrc] at h
    exact Or.inl h

theorem checkout_remote_branch_inv (env : GitEnv) (repoId branch : String)
    {rep : Report} {i c x : String}
    (h : reportMem (checkout_remote_branch env repoId branch rep).2.1 i c x) :
    reportMem rep i c x ∨ c = "branches-com-falha" := by
  simp only [checkout_remote_branch] at h
  split at h
  · split at h
    · rcases reportMem_add_inv h with h2 | ⟨_, h2, _⟩
      · exact Or.inl h2
      · exact Or.inr h2
    · exact Or.inl h
  · exact Or.inl h

theorem reconcile_branches_inv (env : GitEnv) (repoId : String)
    (bs : List String) {rep : Report} {i c x : String}
    (h : reportMem (reconcile_branches env repoId bs rep).1 i c x) :
    reportMem rep i c x ∨ c = "branches-com-falha" := by
  induction bs generalizing rep with
  | nil => exact Or.inl h
  | cons b rest ih =>
    simp only [reconcile_branches] at h
    split at h
    · exact ih h
    · rcases ih h with h2 | h2
      · exact checkout_remote_branch_inv env repoId b h2
      · exact Or.inr h2

theorem fetch_and_prune_inv (env : GitEnv) (repoId : String)
    {rep : Report} {i c x : String}
    (h : reportMem (fetch_and_prune env repoId rep).2.1 i c x) :
    reportMem rep i c x ∨ c = "branches-com-falha" := by
  simp only [fetch_and_prune] at h
  split at h
  · rcases reportMem_add_inv h with h2 | ⟨_, h2, _⟩
    · exact Or.inl h2
    · exact Or.inr h2
  · exact Or.inl h

/-! ### Step equations of `update_repository_branches` under explicit
command outcomes -/

theorem fetch_and_prune_ok (env : GitEnv) (repoId : String) (rep : Report)
    (hf : (env.run ["fetch", "--prune"]).returncode = 0) :
    fetch_and_prune env repoId rep =
      (true, rep, [["remote", "prune", "origin"], ["fetch", "--prune"]]) := by
  unfold fetch_and_prune
  rw [if_neg (fun hne => hne hf)]

theorem get_remote_branches_ok (env : GitEnv)
    (hr : (env.run ["branch", "-r"]).returncode = 0) :
    get_remote_branches env =
      some (get_remote_branches_lines
        (splitlines (env.run ["branch", "-r"]).stdout)) := by
  unfold get_remote_branches
  rw [if_neg (fun hne => hne hr)]

theorem get_remote_branches_fail (env : GitEnv)
    (hr : (env.run ["branch", "-r"]).returncode ≠ 0) :
    get_remote_branches env = none := by
  unfold get_remote_branches
  rw [if_pos hr]

theorem update_repository_branches_ok (env : GitEnv) (repoId : String)
    (flag : Bool) (rep : Report)
    (hf : (env.run ["fetch", "--prune"]).returncode = 0)
    (hr : (env.run ["branch", "-r"]).returncode = 0) :
    update_repository_branches env repoId flag rep =
      ((reconcile_branches env repoId (sortedRemote env)
          (handle_gone_branches env repoId flag rep).1).1,
        ["rev-parse", "--abbrev-ref", "HEAD"] ::
          [["remote", "prune", "origin"], ["fetch", "--prune"]] ++
          [["branch", "-r"]] ++ (handle_gone_branches env repoId flag rep).2 ++
          (reconcile_branches env repoId (sortedRemote env)
            (handle_gone_branches env repoId flag rep).1).2 ++
          (return_to_original_branch env (original_branch env)).2) := by
  unfold update_repository_branches
  rw [fetch_and_prune_ok env repoId rep hf, get_remote_branches_ok env hr]
  rfl

theorem update_repository_branches_enum_fail (env : GitEnv) (repoId : String)
    (flag : Bool) (rep : Report)
    (hf : (env.run ["fetch", "--prune"]).returncode = 0)
    (hr : (env.run ["branch", "-r"]).returncode ≠ 0) :
    update_repository_branches env repoId flag rep =
      (rep, ["rev-parse", "--abbrev-ref", "HEAD"] ::
        [["remote", "prune", "origin"], ["fetch", "--prune"]] ++
        [["branch", "-r"]] ++
        (return_to_original_branch env (original_branch env)).2) := by
  unfold update_repository_branches
  rw [fetch_and_prune_ok env repoId rep hf, get_remote_branches_fail env hr]
  rfl

theorem update_repository_branches_fetch_fail (env : GitEnv) (repoId : String)
    (flag : Bool) (rep : Report)
    (hf : (env.run ["fetch", "--prune"]).returncode ≠ 0) :
    update_repository_branches env repoId flag rep =
      (add_to_report rep repoId "branches-com-falha"
          (pyStrip (env.run ["fetch", "--prune"]).stderr),
        ["rev-parse", "--abbrev-ref", "HEAD"] ::
          [["remote", "prune", "origin"], ["fetch", "--prune"]] ++
          (return_to_original_branch env (original_branch env)).2) := by
  unfold update_repository_branches fetch_and_prune
  rw [if_pos hf]
  rfl

/-! ### Membership characterization of the remote-branch parser -/

theorem mem_grbStep (acc : List String) (line b : String) :
    b ∈ grbStep acc line ↔ b ∈ acc ∨
      (strStartsWith (pyStrip line) "origin/" = true ∧
        strContains (pyStrip line) "->" = false ∧
        b = afterFirstChar '/' (pyStrip line)) := by
  unfold grbStep
  dsimp only
  split
  · rename_i hc
    simp only [Bool.and_eq_true, Bool.not_eq_true'] at hc
    rw [mem_addUniq]
    constructor
    · rintro (h | rfl)
      · exact Or.inl h
      · exact Or.inr ⟨hc.1, hc.2, rfl⟩
    · rintro (h | ⟨_, _, rfl⟩)
      · exact Or.inl h
      · exact Or.inr rfl
  · rename_i hc
    simp only [Bool.and_eq_true, Bool.not_eq_true'] at hc
    constructor
    · exact Or.inl
    · rintro (h | ⟨h1, h2, _⟩)
      · exact h
      · exact absurd ⟨h1, h2⟩ hc

theorem mem_foldl_grbStep (lines : List String) (acc : List String) (b : String) :
    b ∈ lines.foldl grbStep acc ↔
      b ∈ acc ∨ ∃ line ∈ lines,
        strStartsWith (pyStrip line) "origin/" = true ∧
        strContains (pyStrip line) "->" = false ∧
        b = afterFirstChar '/' (pyStrip line) := by
  induction lines generalizing acc with
  | nil => simp
  | cons l rest ih =>
    rw [List.foldl_cons, ih, mem_grbStep]
    constructor
    · rintro ((h | h) | h)
      · exact Or.inl h
      · exact Or.inr ⟨l, List.mem_cons_self _ _, h⟩
      · obtain ⟨line, hline, hp⟩ := h
        exact Or.inr ⟨line, List.mem_cons_of_mem _ hline, hp⟩
    · rintro (h | ⟨line, hline, hp⟩)
      · exact Or.inl (Or.inl h)
      · rcases List.mem_cons.mp hline with rfl | hline2
        · exact Or.inl (Or.inr hp)
        · exact Or.inr ⟨line, hline2, hp⟩

/-! ### Claim theorems -/

/-- **C1** (as stated, refuted): the gone-branch scan does *not* record the
pair (local branch name, remote branch name): on a line whose local name is
`alpha` and whose tracked remote name is `rem`, the report receives only the
string `rem` under `branches-removidas`, and the local name `alpha` appears
nowhere in the report. -/
theorem C1_counterexample :
    goneMatch "  alpha abc1234 [origin/rem: gone] msg" = some ("alpha", "rem") ∧
    (handle_gone_branches envC1 "repo" false []).1 =
      [("repo", [("branches-removidas", ["rem"])])] ∧
    ¬ reportMem (handle_gone_branches envC1 "repo" false []).1
        "repo" "branches-removidas" "alpha" := by
  refine ⟨by decide, by decide, by decide⟩

/-- **C1** (amended): for every local branch whose recorded upstream is
marked removed (a `branch -vv` line matched by the gone pattern with capture
groups `(lb, rb)`), the gone-branch scan records the *remote* branch name
`rb` under the `branches-removidas` category of the report for that
repository identifier. -/
theorem C1_gone_branch_recorded (env : GitEnv) (repoId : String) (flag : Bool)
    (rep : Report) (lb rb : String)
    (hrc : (env.run ["branch", "-vv"]).returncode = 0)
    (hm : (lb, rb) ∈
      (splitlines (env.run ["branch", "-vv"]).stdout).filterMap goneMatch) :
    reportMem (handle_gone_branches env repoId flag rep).1
      repoId "branches-removidas" rb :=
  handle_gone_branches_self env repoId flag rep hrc hm

theorem C1_gone_branch_recorded_witness :
    reportMem (handle_gone_branches envW "r" false []).1
      "r" "branches-removidas" "rem" :=
  C1_gone_branch_recorded envW "r" false [] "alpha" "rem" (by decide) (by decide)

/-- **C3** (as stated, refuted): when fetch succeeds but listing remote
branches fails, the synchronizer records *nothing*: starting from an empty
report, the report is still empty afterwards, whereas the claim requires the
error to be recorded under `branches-com-falha`. -/
theorem C3_counterexample :
    (envC3.run ["fetch", "--prune"]).returncode = 0 ∧
    (envC3.run ["branch", "-r"]).returncode ≠ 0 ∧
    (update_repository_branches envC3 "r" false []).1 = [] := by
  refine ⟨by decide, by decide, ?_⟩
  rw [update_repository_branches_enum_fail envC3 "r" false [] (by decide) (by decide)]

/-- **C3** (amended): if listing remote branches fails during
synchronization, the synchronizer skips gone-branch detection and per-branch
reconciliation and still attempts to restore the original checkout — exactly
as after a fetch failure — but, unlike a fetch failure, it records nothing
in the report. -/
theorem C3_enum_failure_degraded (env : GitEnv) (repoId : String) (flag : Bool)
    (rep : Report)
    (hf : (env.run ["fetch", "--prune"]).returncode = 0)
    (hr : (env.run ["branch", "-r"]).returncode ≠ 0) :
    (update_repository_branches env repoId flag rep).1 = rep ∧
    (update_repository_branches env repoId flag rep).2 =
      [["rev-parse", "--abbrev-ref", "HEAD"], ["remote", "prune", "origin"],
        ["fetch", "--prune"], ["branch", "-r"]] ++
        (return_to_original_branch env (original_branch env)).2 := by
  rw [update_repository_branches_enum_fail env repoId flag rep hf hr]
  exact ⟨rfl, rfl⟩

theorem C3_enum_failure_degraded_witness :
    (update_repository_branches envC3 "r" false []).1 = [] :=
  (C3_enum_failure_degraded envC3 "r" false [] (by decide) (by decide)).1

/-- **C8**: a pull failure on an existing repository leaves the report
unchanged (`_update_repository` records nothing) and branch synchronization
still proceeds on that unchanged report, the `pull` command preceding the
synchronization commands. -/
theorem C8_pull_failure_frame (env : GitEnv) (cloneOk : Bool) (repoId : String)
    (flag : Bool) (rep : Report)
    (_hp : (env.run ["pull"]).returncode ≠ 0) :
    (update_repository env rep).2.1 = rep ∧
    process_repository env true cloneOk repoId flag rep =
      ((update_repository_branches env repoId flag rep).1,
        ["pull"] :: (update_repository_branches env repoId flag rep).2) := by
  constructor
  · rfl
  · unfold process_repository
    rw [if_pos rfl]
    rfl

theorem C8_pull_failure_frame_witness :
    process_repository envW true true "r" false [] =
      ((update_repository_branches envW "r" false []).1,
        ["pull"] :: (update_repository_branches envW "r" false []).2) :=
  (C8_pull_failure_frame envW true "r" false [] (by decide)).2

/-- **C9**: remote-branch enumeration considers only the remote named
`origin`: a name `b` is contributed exactly when some output line of
`branch -r`, once stripped, starts with `origin/`, does not contain `->`,
and yields `b` as everything after its first `/`.  Lines of any other
remote therefore contribute nothing. -/
theorem C9_origin_only (env : GitEnv) (b : String)
    (hrc : (env.run ["branch", "-r"]).returncode = 0) :
    get_remote_branches env =
      some (get_remote_branches_lines
        (splitlines (env.run ["branch", "-r"]).stdout)) ∧
    (b ∈ get_remote_branches_lines (splitlines (env.run ["branch", "-r"]).stdout) ↔
      ∃ line ∈ splitlines (env.run ["branch", "-r"]).stdout,
        strStartsWith (pyStrip line) "origin/" = true ∧
        strContains (pyStrip line) "->" = false ∧
        b = afterFirstChar '/' (pyStrip line)) := by
  refine ⟨get_remote_branches_ok env hrc, ?_⟩
  rw [get_remote_branches_lines, mem_foldl_grbStep]
  simp

theorem C9_origin_only_witness :
    get_remote_branches envW =
      some (get_remote_branches_lines
        (splitlines (envW.run ["branch", "-r"]).stdout)) :=
  (C9_origin_only envW "main" (by decide)).1

/-- **C10**: if the verbose local-branch listing (`branch -vv`) fails, the
gone-branch scan returns with the report unchanged and no entry added;
per-branch reconciliation then proceeds on that unchanged report, and the
restore step still runs at the end. -/
theorem C10_gone_listing_failure (env : GitEnv) (repoId : String) (flag : Bool)
    (rep : Report)
    (hf : (env.run ["fetch", "--prune"]).returncode = 0)
    (hr : (env.run ["branch", "-r"]).returncode = 0)
    (hvv : (env.run ["branch", "-vv"]).returncode ≠ 0) :
    handle_gone_branches env repoId flag rep = (rep, [["branch", "-vv"]]) ∧
    (update_repository_branches env repoId flag rep).1 =
      (reconcile_branches env repoId (sortedRemote env) rep).1 ∧
    (update_repository_branches env repoId flag rep).2 =
      [["rev-parse", "--abbrev-ref", "HEAD"], ["remote", "prune", "origin"],
        ["fetch", "--prune"], ["branch", "-r"], ["branch", "-vv"]] ++
        (reconcile_branches env repoId (sortedRemote env) rep).2 ++
        (return_to_original_branch env (original_branch env)).2 := by
  have hg := handle_gone_branches_fail env repoId flag rep hvv
  refine ⟨hg, ?_, ?_⟩
  · rw [update_repository_branches_ok env repoId flag rep hf hr, hg]
  · rw [update_repository_branches_ok env repoId flag rep hf hr, hg]
    rfl

theorem C10_gone_listing_failure_witness :
    handle_gone_branches envC10 "r" false [] = ([], [["branch", "-vv"]]) :=
  (C10_gone_listing_failure envC10 "r" false [] (by decide) (by decide)
    (by decide)).1

/-- **C4**: every synchronization run ends with the restore step; the
restore checks out the recorded original branch again when that checkout
succeeds; if it fails, or no original branch was recorded (none, empty, or
the detached marker `HEAD`), the restore tries the primary names `main`
then `master` in that fixed order and stops at the first that succeeds. -/
theorem C4_restore (env : GitEnv) (repoId : String) (flag : Bool)
    (rep : Report) (o : String) (ho : o ≠ "") (hh : o ≠ "HEAD") :
    (∃ pre, (update_repository_branches env repoId flag rep).2 =
        pre ++ (return_to_original_branch env (original_branch env)).2) ∧
    ((env.run ["checkout", o]).returncode = 0 →
      return_to_original_branch env (some o) = (some o, [["checkout", o]])) ∧
    ((env.run ["checkout", o]).returncode ≠ 0 →
      return_to_original_branch env (some o) =
        ((try_defaults env ["main", "master"]).1,
          ["checkout", o] :: (try_defaults env ["main", "master"]).2)) ∧
    (return_to_original_branch env none = try_defaults env ["main", "master"]) ∧
    (try_defaults env ["main", "master"] =
      if (env.run ["checkout", "main"]).returncode = 0 then
        (some "main", [["checkout", "main"]])
      else if (env.run ["checkout", "master"]).returncode = 0 then
        (some "master", [["checkout", "main"], ["checkout", "master"]])
      else (none, [["checkout", "main"], ["checkout", "master"]])) := by
  refine ⟨?_, ?_, ?_, rfl, ?_⟩
  · by_cases hf : (env.run ["fetch", "--prune"]).returncode = 0
    · by_cases hr : (env.run ["branch", "-r"]).returncode = 0
      · rw [update_repository_branches_ok env repoId flag rep hf hr]
        exact ⟨_, (List.cons_append _ _ _).symm⟩
      · rw [update_repository_branches_enum_fail env repoId flag rep hf hr]
        exact ⟨_, (List.cons_append _ _ _).symm⟩
    · rw [update_repository_branches_fetch_fail env repoId flag rep hf]
      exact ⟨_, (List.cons_append _ _ _).symm⟩
  · intro h
    unfold return_to_original_branch
    dsimp only
    rw [if_pos ⟨ho, hh⟩, if_pos h]
  · intro h
    unfold return_to_original_branch
    dsimp only
    rw [if_pos ⟨ho, hh⟩, if_neg h]
  · by_cases h1 : (env.run ["checkout", "main"]).returncode = 0
    · simp [try_defaults, h1]
    · by_cases h2 : (env.run ["checkout", "master"]).returncode = 0
      · simp [try_defaults, h1, h2]
      · simp [try_defaults, h1, h2]

theorem C4_restore_witness :
    return_to_original_branch envW (some "dev") =
      (some "dev", [["checkout", "dev"]]) :=
  (C4_restore envW "r" false [] "dev" (by decide) (by decide)).2.1 (by decide)

/-- **C6**: in a successful pass the command trace is the capture/fetch
prefix, then the gone-branch scan, then per-branch reconciliation over the
lexicographically sorted remote-branch list, then restore — so the scan
precedes every reconciliation command; and every entry the pass adds to the
report sits under one of the two anomaly categories, so a branch is never
reported as successfully checked out (no such category exists). -/
theorem C6_sorted_reconciliation (env : GitEnv) (repoId : String) (flag : Bool)
    (rep : Report)
    (hf : (env.run ["fetch", "--prune"]).returncode = 0)
    (hr : (env.run ["branch", "-r"]).returncode = 0) :
    (update_repository_branches env repoId flag rep).2 =
      [["rev-parse", "--abbrev-ref", "HEAD"], ["remote", "prune", "origin"],
        ["fetch", "--prune"], ["branch", "-r"]] ++
        (handle_gone_branches env repoId flag rep).2 ++
        (reconcile_branches env repoId (sortedRemote env)
          (handle_gone_branches env repoId flag rep).1).2 ++
        (return_to_original_branch env (original_branch env)).2 ∧
    List.Sorted (fun a b => a ≤ b) (sortedRemote env) ∧
    (∀ i c x,
      reportMem (update_repository_branches env repoId flag rep).1 i c x →
      reportMem rep i c x ∨ c = "branches-removidas" ∨
        c = "branches-com-falha") := by
  refine ⟨?_, ?_, ?_⟩
  · rw [update_repository_branches_ok env repoId flag rep hf hr]
    rfl
  · unfold sortedRemote
    exact List.sorted_insertionSort _ _
  · intro i c x h
    rw [update_repository_branches_ok env repoId flag rep hf hr] at h
    rcases reconcile_branches_inv env repoId _ h with h2 | h2
    · exact handle_gone_branches_inv env repoId flag h2
    · exact Or.inr (Or.inr h2)

theorem C6_sorted_reconciliation_witness :
    List.Sorted (fun a b => a ≤ b) (sortedRemote envW) :=
  (C6_sorted_reconciliation envW "r" false [] (by decide) (by decide)).2.1

theorem delete_branches_current_recorded (env : GitEnv) (repoId : String)
    (bs : List String) (rep : Report) (cur : String)
    (h0 : (env.run ["rev-parse", "--abbrev-ref", "HEAD"]).returncode = 0)
    (h1 : pyStrip (env.run ["rev-parse", "--abbrev-ref", "HEAD"]).stdout = cur) :
    cur ∈ bs →
    reportMem (delete_branches env repoId bs rep).1
      repoId "branches-com-falha" cur := by
  induction bs generalizing rep with
  | nil => intro hmem; cases hmem
  | cons b rest ih =>
    intro hmem
    rcases List.mem_cons.mp hmem with rfl | hmem2
    · simp only [delete_branches]
      rw [if_pos ⟨h0, h1⟩]
      exact delete_branches_mono _ _ _ (reportMem_add_self _ _ _ _)
    · simp only [delete_branches]
      split
      · exact ih _ hmem2
      · split
        · exact ih _ hmem2
        · exact ih _ hmem2

theorem delete_branches_trace_mem (env : GitEnv) (repoId : String)
    (bs : List String) (rep : Report) (cmd : GitCmd)
    (h : cmd ∈ (delete_branches env repoId bs rep).2) :
    cmd = ["rev-parse", "--abbrev-ref", "HEAD"] ∨
    ∃ b ∈ bs, (cmd = ["branch", "-d", b] ∨ cmd = ["branch", "-D", b]) ∧
      ¬((env.run ["rev-parse", "--abbrev-ref", "HEAD"]).returncode = 0 ∧
        pyStrip (env.run ["rev-parse", "--abbrev-ref", "HEAD"]).stdout = b) := by
  induction bs generalizing rep with
  | nil => cases h
  | cons b rest ih =>
    simp only [delete_branches] at h
    split at h
    · rcases List.mem_cons.mp h with heq | hmem
      · exact Or.inl heq
      · rcases ih _ hmem with h2 | ⟨b2, hb2, hp2⟩
        · exact Or.inl h2
        · exact Or.inr ⟨b2, List.mem_cons_of_mem _ hb2, hp2⟩
    · rename_i hnc
      split at h
      · rcases List.mem_cons.mp h with heq | hmem
        · exact Or.inl heq
        · rcases List.mem_cons.mp hmem with heq | hmem2
          · exact Or.inr ⟨b, List.mem_cons_self _ _, Or.inl heq, hnc⟩
          · rcases List.mem_cons.mp hmem2 with heq | hmem3
            · exact Or.inr ⟨b, List.mem_cons_self _ _, Or.inr heq, hnc⟩
            · rcases ih _ hmem3 with h2 | ⟨b2, hb2, hp2⟩
              · exact Or.inl h2
              · exact Or.inr ⟨b2, List.mem_cons_of_mem _ hb2, hp2⟩
      · rcases List.mem_cons.mp h with heq | hmem
        · exact Or.inl heq
        · rcases List.mem_cons.mp hmem with heq | hmem2
          · exact Or.inr ⟨b, List.mem_cons_self _ _, Or.inl heq, hnc⟩
          · rcases ih _ hmem2 with h2 | ⟨b2, hb2, hp2⟩
            · exact Or.inl h2
            · exact Or.inr ⟨b2, List.mem_cons_of_mem _ hb2, hp2⟩

/-- **C5**: during pruning of gone branches, the currently checked-out
branch is skipped and recorded under `branches-com-falha`, and no delete
command is ever issued for it; for any other branch the safe delete
(`branch -d`) is attempted first, the forced delete (`branch -D`) is
attempted only when the safe delete fails, and the branch is recorded under
`branches-com-falha` only when the forced delete also fails. -/
theorem C5_prune_deletion (env : GitEnv) (repoId : String) (b : String)
    (rest bs : List String) (rep : Report) (cur : String)
    (h0 : (env.run ["rev-parse", "--abbrev-ref", "HEAD"]).returncode = 0)
    (h1 : pyStrip (env.run ["rev-parse", "--abbrev-ref", "HEAD"]).stdout = cur) :
    (b = cur →
      delete_branches env repoId (b :: rest) rep =
        ((delete_branches env repoId rest
            (add_to_report rep repoId "branches-com-falha" b)).1,
          ["rev-parse", "--abbrev-ref", "HEAD"] ::
            (delete_branches env repoId rest
              (add_to_report rep repoId "branches-com-falha" b)).2)) ∧
    (b ≠ cur → (env.run ["branch", "-d", b]).returncode = 0 →
      delete_branches env repoId (b :: rest) rep =
        ((delete_branches env repoId rest rep).1,
          ["rev-parse", "--abbrev-ref", "HEAD"] :: ["branch", "-d", b] ::
            (delete_branches env repoId rest rep).2)) ∧
    (b ≠ cur → (env.run ["branch", "-d", b]).returncode ≠ 0 →
      (env.run ["branch", "-D", b]).returncode = 0 →
      delete_branches env repoId (b :: rest) rep =
        ((delete_branches env repoId rest rep).1,
          ["rev-parse", "--abbrev-ref", "HEAD"] :: ["branch", "-d", b] ::
            ["branch", "-D", b] :: (delete_branches env repoId rest rep).2)) ∧
    (b ≠ cur → (env.run ["branch", "-d", b]).returncode ≠ 0 →
      (env.run ["branch", "-D", b]).returncode ≠ 0 →
      delete_branches env repoId (b :: rest) rep =
        ((delete_branches env repoId rest
            (add_to_report rep repoId "branches-com-falha" b)).1,
          ["rev-parse", "--abbrev-ref", "HEAD"] :: ["branch", "-d", b] ::
            ["branch", "-D", b] ::
            (delete_branches env repoId rest
              (add_to_report rep repoId "branches-com-falha" b)).2)) ∧
    (cur ∈ bs →
      reportMem (delete_branches env repoId bs rep).1
        repoId "branches-com-falha" cur) ∧
    (["branch", "-d", cur] ∉ (delete_branches env repoId bs rep).2 ∧
      ["branch", "-D", cur] ∉ (delete_branches env repoId bs rep).2) := by
  refine ⟨?_, ?_, ?_, ?_, ?_, ?_, ?_⟩
  · intro hbc
    simp only [delete_branches]
    rw [if_pos ⟨h0, h1.trans hbc.symm⟩]
  · intro hbc hd
    simp only [delete_branches]
    rw [if_neg (fun hand => hbc (hand.2.symm.trans h1)),
      if_neg (fun hne => hne hd)]
  · intro hbc hd hD
    simp only [delete_branches]
    rw [if_neg (fun hand => hbc (hand.2.symm.trans h1)), if_pos hd,
      if_neg (fun hne => hne hD)]
  · intro hbc hd hD
    simp only [delete_branches]
    rw [if_neg (fun hand => hbc (hand.2.symm.trans h1)), if_pos hd,
      if_pos hD]
  · exact delete_branches_current_recorded env repoId bs rep cur h0 h1
  · intro hmem
    rcases delete_branches_trace_mem env repoId bs rep _ hmem with heq | h2
    · simp at heq
    · obtain ⟨b2, _, hcmd, hnc⟩ := h2
      rcases hcmd with heq | heq
      · have hb2 : cur = b2 := by simpa using heq
        exact hnc ⟨h0, h1.trans hb2⟩
      · simp at heq
  · intro hmem
    rcases delete_branches_trace_mem env repoId bs rep _ hmem with heq | h2
    · simp at heq
    · obtain ⟨b2, _, hcmd, hnc⟩ := h2
      rcases hcmd with heq | heq
      · simp at heq
      · have hb2 : cur = b2 := by simpa using heq
        exact hnc ⟨h0, h1.trans hb2⟩

theorem C5_prune_deletion_witness :
    reportMem (delete_branches envW "r" ["dev"] []).1
      "r" "branches-com-falha" "dev" :=
  (C5_prune_deletion envW "r" "feat" [] ["dev"] [] "dev" (by decide)
    (by decide)).2.2.2.2.1 (by decide)

/-! ### String and path lemmas for the report renderer and job builder -/

theorem toList_append (a b : String) : (a ++ b).toList = a.toList ++ b.toList :=
  rfl

theorem toList_ne_nil {s : String} (h : s ≠ "") : s.toList ≠ [] := by
  intro hl
  exact h (String.ext (hl.trans rfl))

theorem headIs_false {s : String} {c : Char} (h : c ∉ s.toList) :
    ¬ headIs s c = true := by
  intro hh
  have h2 : s.toList.head? = some c := of_decide_eq_true hh
  cases hl : s.toList with
  | nil => rw [hl] at h2; cases h2
  | cons a t =>
    rw [hl, List.head?_cons] at h2
    injection h2 with hac
    rw [hl] at h
    exact h (by rw [← hac]; exact List.mem_cons_self a t)

theorem lastIs_false {s : String} {c : Char} (h : c ∉ s.toList) :
    ¬ lastIs s c = true := by
  intro hh
  have h2 : s.toList.getLast? = some c := of_decide_eq_true hh
  have hmem : c ∈ s.toList.getLast? := Option.mem_def.mpr h2
  obtain ⟨hne, heq⟩ := List.mem_getLast?_eq_getLast hmem
  exact h (by rw [heq]; exact List.getLast_mem hne)

theorem append_slash_ne_empty (a b : String) : a ++ "/" ++ b ≠ "" := by
  intro h
  have h2 : ((a ++ "/") ++ b).toList = "".toList := congrArg String.toList h
  rw [toList_append, toList_append] at h2
  have h3 : "".toList = ([] : List Char) := rfl
  have h4 : "/".toList = ['/'] := rfl
  rw [h3, h4] at h2
  simp at h2

theorem lastIs_slash_append (a b : String) (hb0 : b ≠ "")
    (hb : ('/' : Char) ∉ b.toList) :
    ¬ lastIs (a ++ "/" ++ b) '/' = true := by
  intro hh
  have h2 : ((a ++ "/") ++ b).toList.getLast? = some '/' := of_decide_eq_true hh
  rw [toList_append, List.getLast?_append_of_ne_nil _ (toList_ne_nil hb0)] at h2
  have hmem : ('/' : Char) ∈ b.toList.getLast? := Option.mem_def.mpr h2
  obtain ⟨hne, heq⟩ := List.mem_getLast?_eq_getLast hmem
  exact hb (by rw [heq]; exact List.getLast_mem hne)

theorem pyJoin2_eq (a b : String) (ha0 : a ≠ "") (hal : ¬ lastIs a '/' = true)
    (hbh : ¬ headIs b '/' = true) : pyJoin2 a b = a ++ "/" ++ b := by
  unfold pyJoin2
  rw [if_neg hbh, if_neg (fun hor => hor.elim ha0 hal)]

theorem pyJoin_four (d c p n : String) (hd0 : d ≠ "")
    (hdl : ¬ lastIs d '/' = true)
    (hc0 : c ≠ "") (hc : ('/' : Char) ∉ c.toList)
    (hp0 : p ≠ "") (hp : ('/' : Char) ∉ p.toList)
    (hn : ¬ headIs n '/' = true) :
    pyJoin [d, c, p, n] = d ++ "/" ++ c ++ "/" ++ p ++ "/" ++ n := by
  show pyJoin2 (pyJoin2 (pyJoin2 d c) p) n = _
  rw [pyJoin2_eq d c hd0 hdl (headIs_false hc),
    pyJoin2_eq _ p (append_slash_ne_empty d c) (lastIs_slash_append d c hc0 hc)
      (headIs_false hp),
    pyJoin2_eq _ n (append_slash_ne_empty _ p) (lastIs_slash_append _ p hp0 hp)
      hn]

theorem pyJoin_five (d c p g n : String) (hd0 : d ≠ "")
    (hdl : ¬ lastIs d '/' = true)
    (hc0 : c ≠ "") (hc : ('/' : Char) ∉ c.toList)
    (hp0 : p ≠ "") (hp : ('/' : Char) ∉ p.toList)
    (hg0 : g ≠ "") (hg : ('/' : Char) ∉ g.toList)
    (hn : ¬ headIs n '/' = true) :
    pyJoin [d, c, p, g, n] =
      d ++ "/" ++ c ++ "/" ++ p ++ "/" ++ g ++ "/" ++ n := by
  show pyJoin2 (pyJoin2 (pyJoin2 (pyJoin2 d c) p) g) n = _
  rw [pyJoin2_eq d c hd0 hdl (headIs_false hc),
    pyJoin2_eq _ p (append_slash_ne_empty d c) (lastIs_slash_append d c hc0 hc)
      (headIs_false hp),
    pyJoin2_eq _ g (append_slash_ne_empty _ p) (lastIs_slash_append _ p hp0 hp)
      (headIs_false hg),
    pyJoin2_eq _ n (append_slash_ne_empty _ g) (lastIs_slash_append _ g hg0 hg)
      hn]

theorem processar_repo_name_strip (n : String) :
    processar_repo_name (n ++ ".git") = n := by
  have hc : (".git".toList).isSuffixOf ((n ++ ".git").toList) = true := by
    rw [toList_append]
    exact List.isSuffixOf_iff_suffix.mpr (List.suffix_append _ _)
  unfold processar_repo_name
  rw [if_pos hc]
  have h4 : (n ++ ".git").toList = n.toList ++ ['.', 'g', 'i', 't'] :=
    toList_append n ".git"
  rw [h4]
  have e1 : (n.toList ++ ['.', 'g', 'i', 't']).dropLast =
      n.toList ++ ['.', 'g', 'i'] := by
    rw [List.dropLast_append_of_ne_nil _ (by simp)]
    rfl
  have e2 : (n.toList ++ ['.', 'g', 'i']).dropLast = n.toList ++ ['.', 'g'] := by
    rw [List.dropLast_append_of_ne_nil _ (by simp)]
    rfl
  have e3 : (n.toList ++ ['.', 'g']).dropLast = n.toList ++ ['.'] := by
    rw [List.dropLast_append_of_ne_nil _ (by simp)]
    rfl
  have e4 : (n.toList ++ ['.']).dropLast = n.toList := List.dropLast_concat
  rw [e1, e2, e3, e4]
  exact String.ext rfl

theorem processar_repo_name_id (repo : String)
    (h : (".git".toList).isSuffixOf repo.toList = false) :
    processar_repo_name repo = repo := by
  unfold processar_repo_name
  rw [if_neg (by rw [h]; exact Bool.false_ne_true)]

theorem append_empty_str (a : String) : a ++ "" = a := by
  have h2 : (a ++ "").toList = a.toList := by
    rw [toList_append]
    have h0 : "".toList = ([] : List Char) := rfl
    rw [h0, List.append_nil]
  exact String.ext h2

/-- **C7**: the clone URL is `urlBase ++ repoName` with a `/` inserted only
when the base ends in neither `/` nor `:`, built from the *unstripped*
repository name; the destination path is
`dirBase/classe/proj[/grupo]/strippedName` where the stripped name has a
trailing `.git` removed (and is otherwise unchanged); path components are
assumed separator-free and non-empty, as a well-formed manifest provides. -/
theorem C7_job_construction (base dir classe proj g repo client : String)
    (hdir0 : dir ≠ "") (hdirl : ¬ lastIs dir '/' = true)
    (hc0 : classe ≠ "") (hc : ('/' : Char) ∉ classe.toList)
    (hp0 : proj ≠ "") (hpj : ('/' : Char) ∉ proj.toList)
    (hg0 : g ≠ "") (hg : ('/' : Char) ∉ g.toList)
    (hrn : ('/' : Char) ∉ (processar_repo_name repo).toList) :
    ((lastIs base '/' || lastIs base ':') = true →
      (process_repo_entry base dir classe proj none repo client).url =
        base ++ repo) ∧
    ((lastIs base '/' || lastIs base ':') = false →
      (process_repo_entry base dir classe proj none repo client).url =
        base ++ "/" ++ repo) ∧
    (process_repo_entry base dir classe proj none repo client).dest =
      dir ++ "/" ++ classe ++ "/" ++ proj ++ "/" ++ processar_repo_name repo ∧
    (process_repo_entry base dir classe proj (some g) repo client).dest =
      dir ++ "/" ++ classe ++ "/" ++ proj ++ "/" ++ g ++ "/" ++
        processar_repo_name repo ∧
    (∀ n : String, processar_repo_name (n ++ ".git") = n) ∧
    ((".git".toList).isSuffixOf repo.toList = false →
      processar_repo_name repo = repo) := by
  refine ⟨?_, ?_, ?_, ?_, processar_repo_name_strip,
    processar_repo_name_id repo⟩
  · intro h
    unfold process_repo_entry
    dsimp only
    rw [h]
    simp [append_empty_str]
  · intro h
    unfold process_repo_entry
    dsimp only
    rw [h]
    simp
  · have h1 : (process_repo_entry base dir classe proj none repo client).dest =
        pyJoin [dir, classe, proj, processar_repo_name repo] := rfl
    rw [h1, pyJoin_four dir classe proj _ hdir0 hdirl hc0 hc hp0 hpj
      (headIs_false hrn)]
  · have h1 : (process_repo_entry base dir classe proj (some g) repo
        client).dest =
        pyJoin ([dir, classe, proj] ++ (if g ≠ "" then [g] else []) ++
          [processar_repo_name repo]) := rfl
    rw [h1, if_pos hg0]
    have h2 : [dir, classe, proj] ++ [g] ++ [processar_repo_name repo] =
        [dir, classe, proj, g, processar_repo_name repo] := rfl
    rw [h2, pyJoin_five dir classe proj g _ hdir0 hdirl hc0 hc hp0 hpj hg0 hg
      (headIs_false hrn)]

theorem C7_job_construction_witness :
    (process_repo_entry "https://git.example.com/" "/base" "core" "app" none
        "svc" "acme").url = "https://git.example.com/" ++ "svc" ∧
    (process_repo_entry "https://git.example.com/" "/base" "core" "app" none
        "svc" "acme").dest =
      "/base" ++ "/" ++ "core" ++ "/" ++ "app" ++ "/" ++
        processar_repo_name "svc" :=
  ⟨(C7_job_construction "https://git.example.com/" "/base" "core" "app" "grp"
      "svc" "acme" (by decide) (by decide) (by decide) (by decide) (by decide)
      (by decide) (by decide) (by decide) (by decide)).1 (by decide),
    (C7_job_construction "https://git.example.com/" "/base" "core" "app" "grp"
      "svc" "acme" (by decide) (by decide) (by decide) (by decide) (by decide)
      (by decide) (by decide) (by decide) (by decide)).2.2.1⟩

/-- **C2** (as stated, refuted): the renderer does not sort the category
keys inside a repository entry — it keeps dict insertion order — so
recording the same two anomalies with the categories first touched in
opposite orders yields two different rendered reports, and the rendered
entry lists `branches-removidas` before `branches-com-falha`, which is not
sorted. -/
theorem C2_counterexample :
    render_report (add_to_report
        (add_to_report [] "r" "branches-removidas" "x") "r"
        "branches-com-falha" "y") ≠
      render_report (add_to_report
        (add_to_report [] "r" "branches-com-falha" "y") "r"
        "branches-removidas" "x") ∧
    render_report (add_to_report
        (add_to_report [] "r" "branches-removidas" "x") "r"
        "branches-com-falha" "y") =
      [("r", [("branches-removidas", ["x"]),
        ("branches-com-falha", ["y"])])] := by
  constructor
  · decide
  · decide

/-- **C2** (amended): in every rendered report the repository identifiers
are sorted and the branch-name lists of the two categories are sorted; the
category keys of each entry keep their first-recorded insertion order, so
the rendered output is *not* independent of the order in which the
categories were first recorded. -/
theorem C2_render_sorted (rep : Report) :
    List.Sorted (fun a b => a ≤ b) ((render_report rep).map Prod.fst) ∧
    (∀ e ∈ render_report rep, ∀ q ∈ e.2,
      (q.1 = "branches-removidas" ∨ q.1 = "branches-com-falha") →
      List.Sorted (fun a b => a ≤ b) q.2) := by
  constructor
  · unfold render_report
    rw [List.map_map]
    have hid : (Prod.fst ∘ fun k : String =>
        (k, sortCatLists (lookupCats rep k))) = id := rfl
    rw [hid, List.map_id]
    exact List.sorted_insertionSort _ _
  · intro e he q hq hcat
    unfold render_report at he
    rcases List.mem_map.mp he with ⟨k, hk, hke⟩
    subst hke
    unfold sortCatLists at hq
    rcases List.mem_map.mp hq with ⟨q0, hq0, hqe⟩
    subst hqe
    by_cases hcc : q0.1 = "branches-removidas" ∨ q0.1 = "branches-com-falha"
    · rw [if_pos hcc]
      exact List.sorted_insertionSort _ _
    · rw [if_neg hcc] at hcat
      exact absurd hcat hcc

theorem C2_render_sorted_witness :
    List.Sorted (fun a b => a ≤ b)
      ((render_report [("r", [("branches-removidas", ["x"])])]).map
        Prod.fst) :=
  (C2_render_sorted [("r", [("branches-removidas", ["x"])])]).1
